import Mathlib

/-!
Verification development for the CP_scoreboard synchronization engine
(`src/scoreboard.rs`, `src/main.rs`).

The Rust code is shallowly embedded: `BTreeMap` becomes a key-sorted
association list, `DateTime<Local>` becomes a `Nat` instant (seconds since
the Unix epoch, which the code uses as the initial watermark), and the
futures-0.1 fetch/name-resolution pipelines become lists of `Except`
outcomes, collected with first-error semantics exactly as
`Stream::collect` on a fallible stream behaves (`block_on(...)?` then
propagates the error).
-/

namespace CPScoreboard

/-- `enum SolveStatus { None = 0, Accepted, WrongAnswer }` from scoreboard.rs. -/
inductive SolveStatus where
  | None
  | Accepted
  | WrongAnswer
deriving DecidableEq, Repr

/-- `struct ProblemCell { wa_count: usize, status: SolveStatus }`. -/
structure ProblemCell where
  wa_count : Nat
  status : SolveStatus
deriving DecidableEq, Repr

/-- `Default for ProblemCell` (derived): zero count, `SolveStatus::None`. -/
def defaultCell : ProblemCell := ⟨0, SolveStatus.None⟩

/-- `struct UserRecord { id: u64, name: String, problems: BTreeMap<u32, ProblemCell> }`. -/
structure UserRecord where
  id : Nat
  name : String
  problems : List (Nat × ProblemCell)
deriving DecidableEq, Repr

/-- `Default for UserRecord` (derived): id 0, empty name, empty map. -/
def defaultUserRecord : UserRecord := ⟨0, "", []⟩

/-- `struct Submission` from scoreboard.rs (all fields, in declaration order). -/
structure Submission where
  memory_usage : Option Nat
  time_usage : Option Nat
  length : Nat
  verdict_id : Nat
  execute_id : Nat
  user_id : Nat
  problem_id : Nat
  created_at : Nat
  updated_at : Nat
  id : Nat
  score : Option Int
deriving DecidableEq, Repr

/-- Placeholder submission used only as the out-of-range default for list
indexing inside the binary-search model; never actually read. -/
def defaultSubmission : Submission := ⟨none, none, 0, 0, 0, 0, 0, 0, 0, 0, none⟩

/-- `struct Scoreboard { user_map: BTreeMap<u64, UserRecord>,
problem_set: BTreeSet<u32>, problem_cache: BTreeMap<u32, DateTime<Local>> }`. -/
structure Scoreboard where
  user_map : List (Nat × UserRecord)
  problem_set : List Nat
  problem_cache : List (Nat × Nat)
deriving DecidableEq, Repr

/-- `Scoreboard::new()`: all maps empty. -/
def Scoreboard.new : Scoreboard := ⟨[], [], []⟩

/-! ### Association-list model of `BTreeMap`

A `BTreeMap` is a list of key/value pairs with strictly increasing keys.
`alGet` models `get`, `alUpdate` models `entry(k).or_default()` followed by
an in-place mutation (equivalently `entry(k).and_modify(f).or_insert(f d)`),
and `alModify` models `entry(k).and_modify(f)` alone. -/

/-- Lookup, `BTreeMap::get`. -/
def alGet (k : Nat) : List (Nat × α) → Option α
  | [] => none
  | (k', v) :: t => if k = k' then some v else alGet k t

/-- `entry(k)`: apply `f` to the current value, inserting `f d` at the
sorted position when the key is absent. -/
def alUpdate (k : Nat) (d : α) (f : α → α) : List (Nat × α) → List (Nat × α)
  | [] => [(k, f d)]
  | (k', v) :: t =>
    if k < k' then (k, f d) :: (k', v) :: t
    else if k = k' then (k', f v) :: t
    else (k', v) :: alUpdate k d f t

/-- `entry(k).and_modify(f)`: apply `f` only when the key is present. -/
def alModify (k : Nat) (f : α → α) : List (Nat × α) → List (Nat × α)
  | [] => []
  | (k', v) :: t => if k = k' then (k', f v) :: t else (k', v) :: alModify k f t

/-- Well-formedness of the `BTreeMap` model: keys strictly increasing. -/
def MapWF (l : List (Nat × α)) : Prop := List.Pairwise (fun a b => a.1 < b.1) l

instance (l : List (Nat × α)) : Decidable (MapWF l) := by
  unfold MapWF; infer_instance

/-- Well-formedness of a `user_map` value: the outer map and every
record's `problems` map are key-sorted. -/
def UMapWF (um : List (Nat × UserRecord)) : Prop :=
  MapWF um ∧ ∀ e ∈ um, MapWF e.2.problems

instance (um : List (Nat × UserRecord)) : Decidable (UMapWF um) := by
  unfold UMapWF; infer_instance


/-! ### `slice::binary_search_by`

The sync loop computes its resume point with
`submissions.binary_search_by(|sub| sub.created_at.cmp(&time))`.  `bsLoop`
and `binarySearchBy` are the implementation of `binary_search_by` shipped
with the Rust toolchains this crate builds with (futures 0.1 / tokio 0.1
era, i.e. pre-1.52 std): a `base`/`size` bisection that moves `base` to
`mid` whenever the probe is not `Greater`, hence lands on the **last**
matching element when duplicates are present. -/

/-- The `while size > 1` bisection loop of `binary_search_by`.  The loop
halves `size` on every iteration, so running it with `fuel` initialized to
the slice length is the loop itself (the fuel never runs out; it only makes
the recursion structural). -/
def bsLoop (f : α → Ordering) (l : List α) (d : α) : Nat → Nat → Nat → Nat
  | 0, base, _ => base
  | fuel + 1, base, size =>
    if 1 < size then
      let half := size / 2
      let mid := base + half
      bsLoop f l d fuel (if f (l.getD mid d) = Ordering.gt then base else mid) (size - half)
    else base

/-- `slice::binary_search_by`; `Sum.inl` is `Ok`, `Sum.inr` is `Err`.
(`bsLoop .. l.length 0 l.length` is the final `base` of the bisection loop;
`Err(base + (cmp == Less) as usize)` in the Rust source.) -/
def binarySearchBy (f : α → Ordering) (l : List α) (d : α) : Sum Nat Nat :=
  if l.length = 0 then Sum.inr 0
  else
    match f (l.getD (bsLoop f l d l.length 0 l.length) d) with
    | Ordering.eq => Sum.inl (bsLoop f l d l.length 0 l.length)
    | Ordering.lt => Sum.inr (bsLoop f l d l.length 0 l.length + 1)
    | Ordering.gt => Sum.inr (bsLoop f l d l.length 0 l.length)

/-- The resume point of the merge loop:
`match binary_search(..) { Ok(p) => p + 1, Err(p) => p }`. -/
def startFrom (subs : List Submission) (time : Nat) : Nat :=
  match binarySearchBy (fun s => compare s.created_at time) subs defaultSubmission with
  | Sum.inl p => p + 1
  | Sum.inr p => p

/-! ### The merge rule (`Scoreboard::sync`, per-submission match) -/

/-- `4..=9` — the collapsed-Rejected verdict bucket (CE, RE, MLE, TLE, OLE, WA). -/
def isRejVerdict (v : Nat) : Bool := decide (4 ≤ v) && decide (v ≤ 9)

/-- `10` — the Accepted verdict. -/
def isAccVerdict (v : Nat) : Bool := v == 10

/-- Verdicts that reach one of the two mutating match arms. -/
def isTerminalVerdict (v : Nat) : Bool := isRejVerdict v || isAccVerdict v

/-- The per-cell state machine of the `match sub.verdict_id` arms:
`4..=9` increments `wa_count` and sets `WrongAnswer` unless already
`Accepted`; `10` sets `Accepted`; anything else is a no-op. -/
def cellMerge (v : Nat) (c : ProblemCell) : ProblemCell :=
  if isRejVerdict v then
    if c.status = SolveStatus.Accepted then c
    else ⟨c.wa_count + 1, SolveStatus.WrongAnswer⟩
  else if isAccVerdict v then ⟨c.wa_count, SolveStatus.Accepted⟩
  else c

/-- Effect of one submission on a `UserRecord`: terminal verdicts go through
`user_record.problem(pid)` (= `problems.entry(pid).or_default()`) and the
cell state machine; transient verdicts leave the record untouched. -/
def recMerge (pid v : Nat) (r : UserRecord) : UserRecord :=
  if isTerminalVerdict v then
    { r with problems := alUpdate pid defaultCell (cellMerge v) r.problems }
  else r

/-- One iteration of `for sub in &submissions[start_from..]`:
`user_map.entry(sub.user_id).or_default()` always runs, the match arm
updates the cell, and `time` advances on terminal verdicts with
`created_at > time`. -/
def mergeSub (pid : Nat) (st : List (Nat × UserRecord) × Nat) (sub : Submission) :
    List (Nat × UserRecord) × Nat :=
  (alUpdate sub.user_id defaultUserRecord (recMerge pid sub.verdict_id) st.1,
   if isTerminalVerdict sub.verdict_id && decide (st.2 < sub.created_at)
   then sub.created_at else st.2)

/-- Processing of one `(pid, submissions)` pair inside `sync`: read the
watermark (epoch when absent), binary-search the resume point, fold the
merge over the tail, then
`problem_cache.entry(pid).and_modify(|t| if time > *t { *t = time }).or_insert(time)`. -/
def processBatch (sb : Scoreboard) (pid : Nat) (subs : List Submission) : Scoreboard :=
  let time := (alGet pid sb.problem_cache).getD 0
  let r := (subs.drop (startFrom subs time)).foldl (mergeSub pid) (sb.user_map, time)
  { sb with
    user_map := r.1
    problem_cache := alUpdate pid r.2 (fun t => if t < r.2 then r.2 else t) sb.problem_cache }

/-- `for (pid, submissions) in problems { ... }`. -/
def syncMerge (sb : Scoreboard) (batches : List (Nat × List Submission)) : Scoreboard :=
  batches.foldl (fun sb b => processBatch sb b.1 b.2) sb

/-! ### Fetch / name-resolution pipelines -/

/-- `Stream::collect` over a fallible futures-0.1 stream
(`buffer_unordered(10).collect()` then `block_on(..)?`): the whole
collection fails as soon as any element is an error, dropping every
already-collected success. -/
def collectResults : List (Except String α) → Except String (List α)
  | [] => Except.ok []
  | Except.ok a :: t =>
    match collectResults t with
    | Except.ok l => Except.ok (a :: l)
    | Except.error e => Except.error e
  | Except.error e :: _ => Except.error e

/-- Whether an outcome is an error. -/
def isErrB : Except String α → Bool
  | Except.ok _ => false
  | Except.error _ => true

/-- The `need_update` scan: users whose `name` is empty, in map order. -/
def needUpdate (um : List (Nat × UserRecord)) : List Nat :=
  (um.filter fun e => e.2.name == "").map (fun e => e.1)

/-- Name-resolution phase: fetch every needed name (outcomes given by
`resolver`), collect with first-error semantics, and only on overall
success write the names back via `entry(uid).and_modify(..)`. -/
def namePhase (um : List (Nat × UserRecord)) (resolver : Nat → Except String String) :
    Except String (List (Nat × UserRecord)) :=
  match collectResults ((needUpdate um).map fun uid =>
      match resolver uid with
      | Except.ok n => Except.ok (uid, n)
      | Except.error e => Except.error e) with
  | Except.error e => Except.error e
  | Except.ok names =>
    Except.ok (names.foldl (fun m p => alModify p.1 (fun u => { u with name := p.2 }) m) um)

/-- `Scoreboard::sync`, with the network effects reified: `fetched` lists
the per-problem fetch outcomes (each already sorted by the fetch closure)
and `resolver` the name-request outcomes.  The function returns the store
as left by the `&mut self` mutations together with the `SimpleResult`:
a fetch error aborts before any merge; a name-resolution error aborts
after the merges but before any name write-back. -/
def sync (sb : Scoreboard) (fetched : List (Except String (Nat × List Submission)))
    (resolver : Nat → Except String String) : Scoreboard × Except String Unit :=
  match collectResults fetched with
  | Except.error e => (sb, Except.error e)
  | Except.ok batches =>
    let sb1 := syncMerge sb batches
    match namePhase sb1.user_map resolver with
    | Except.error e => (sb1, Except.error e)
    | Except.ok um => ({ sb1 with user_map := um }, Except.ok ())

/-- The per-problem watermark as read by `sync` (epoch `0` when absent). -/
def wmOf (sb : Scoreboard) (pid : Nat) : Nat :=
  (alGet pid sb.problem_cache).getD 0

/-- The (user, problem) cell as read everywhere in the code:
`user_map.get(uid)` then `problems.get(pid).map(|x| *x).unwrap_or_default()`. -/
def cellOf (um : List (Nat × UserRecord)) (u pid : Nat) : ProblemCell :=
  (alGet pid ((alGet u um).getD defaultUserRecord).problems).getD defaultCell

/-! ### `Scoreboard::gen_table`

The table is modelled renderer-agnostically as a list of rows of cell
strings (prettytable alignment/color tags are presentation-only).  The
chrono format string `"%Y-%m-%d\n%H:%M:%S"` is abstracted by `fmtTime`;
no claim depends on the textual shape of the timestamp. -/

/-- `UserRecord::ac_count`: accepted cells counted over `problem_set`. -/
def acCount (probSet : List Nat) (u : UserRecord) : Nat :=
  probSet.countP fun p =>
    match alGet p u.problems with
    | some c => decide (c.status = SolveStatus.Accepted)
    | none => false

/-- Stable insertion (descending by `ac_count`, ties keep input order),
modelling the stable `users.sort_by(|a, b| b.ac_count(..).cmp(&a.ac_count(..)))`. -/
def insDesc (probSet : List Nat) (u : UserRecord) : List UserRecord → List UserRecord
  | [] => [u]
  | v :: t =>
    if acCount probSet v ≤ acCount probSet u then u :: v :: t
    else v :: insDesc probSet u t

/-- Stable sort of the user rows, descending by `ac_count`. -/
def sortDesc (probSet : List Nat) : List UserRecord → List UserRecord
  | [] => []
  | u :: t => insDesc probSet u (sortDesc probSet t)

/-- Cell text of the user grid: `"AC / {wa+1}"`, `"WA / {wa}"`, `"NS"`. -/
def dispCell (c : ProblemCell) : String :=
  match c.status with
  | SolveStatus.Accepted => "AC / " ++ toString (c.wa_count + 1)
  | SolveStatus.WrongAnswer => "WA / " ++ toString c.wa_count
  | SolveStatus.None => "NS"

/-- Abstract rendering of the `"%Y-%m-%d\n%H:%M:%S"` chrono format. -/
def fmtTime (t : Nat) : String := toString t

/-- One user row: name cell then one cell per requested problem, each read
with `problems.get(prob).map(|x| *x).unwrap_or_default()`. -/
def userRow (problems : List Nat) (u : UserRecord) : List String :=
  u.name :: problems.map fun p => dispCell ((alGet p u.problems).getD defaultCell)

/-- `Scoreboard::gen_table`: problem-id header, `Updated At` row from
`problem_cache`, one row per user (sorted, never filtered), and the
problem-id header repeated as footer. -/
def genTableRows (sb : Scoreboard) (problems : List Nat) : List (List String) :=
  let users := sortDesc sb.problem_set (sb.user_map.map fun e => e.2)
  let header := "" :: problems.map (fun p => toString p)
  let updRow := "Updated At" :: problems.map fun p =>
    match alGet p sb.problem_cache with
    | some t => fmtTime t
    | none => ""
  header :: updRow :: (users.map (userRow problems) ++ [header])

/-! ### Cache codec (`load_cache` / `save_cache`, bincode)

`save_cache` is `bincode::serialize_into(file, self)`; `load_cache` is
`bincode::deserialize_from(file)`.  The encoding below follows bincode v1
field-by-field: every integer is fixed-width little-endian (u64 for map
keys/`usize`/timestamp instants, u32 for problem ids and enum tags),
collections are a u64 element count followed by the elements, strings a
u64 length followed by their characters.  (Characters are stored as their
u32 scalar values and the `DateTime<Local>` instant as its u64 value; the
spec's §4.4/§9 fixes only the round-trip law, not bit-level
compatibility.)  The decoder returns `none` on corrupt or truncated
input, modelling the `Err` of `bincode::deserialize_from`. -/

/-- Little-endian byte encoding, `k` bytes. -/
def toLE : Nat → Nat → List Nat
  | 0, _ => []
  | k + 1, n => n % 256 :: toLE k (n / 256)

/-- Little-endian byte decoding. -/
def fromLE : List Nat → Nat
  | [] => 0
  | b :: bs => b + 256 * fromLE bs

/-- Encode a u64. -/
def encU64 (n : Nat) : List Nat := toLE 8 n

/-- Encode a u32. -/
def encU32 (n : Nat) : List Nat := toLE 4 n

/-- Read a fixed-width little-endian integer. -/
def decFixed (k : Nat) (bs : List Nat) : Option (Nat × List Nat) :=
  if k ≤ bs.length then some (fromLE (bs.take k), bs.drop k) else none

/-- Read a u64. -/
def decU64 : List Nat → Option (Nat × List Nat) := decFixed 8

/-- Read a u32. -/
def decU32 : List Nat → Option (Nat × List Nat) := decFixed 4

/-- Concatenated encodings of the elements. -/
def encListAux (enc : α → List Nat) : List α → List Nat
  | [] => []
  | a :: t => enc a ++ encListAux enc t

/-- bincode sequence: u64 element count, then the elements. -/
def encList (enc : α → List Nat) (l : List α) : List Nat :=
  encU64 l.length ++ encListAux enc l

/-- Read exactly `n` elements. -/
def decListN (dec : List Nat → Option (α × List Nat)) :
    Nat → List Nat → Option (List α × List Nat)
  | 0, bs => some ([], bs)
  | n + 1, bs =>
    match dec bs with
    | some (a, bs') =>
      match decListN dec n bs' with
      | some (l, bs'') => some (a :: l, bs'')
      | none => none
    | none => none

/-- Read a bincode sequence. -/
def decList (dec : List Nat → Option (α × List Nat)) (bs : List Nat) :
    Option (List α × List Nat) :=
  match decU64 bs with
  | some (n, bs') => decListN dec n bs'
  | none => none

/-- Encode one map entry (key then value). -/
def encPair (encK encV : Nat → List Nat) : Nat × Nat → List Nat :=
  fun e => encK e.1 ++ encV e.2

/-- Encode a character as its u32 scalar value. -/
def encChar (c : Char) : List Nat := encU32 c.toNat

/-- Decode a character. -/
def decChar (bs : List Nat) : Option (Char × List Nat) :=
  match decU32 bs with
  | some (n, bs') => some (Char.ofNat n, bs')
  | none => none

/-- Encode a string as a sequence of characters. -/
def encStr (s : String) : List Nat := encList encChar s.data

/-- Decode a string. -/
def decStr (bs : List Nat) : Option (String × List Nat) :=
  match decList decChar bs with
  | some (l, bs') => some (String.mk l, bs')
  | none => none

/-- Encode `SolveStatus` as its u32 variant tag. -/
def encStatus : SolveStatus → List Nat
  | SolveStatus.None => encU32 0
  | SolveStatus.Accepted => encU32 1
  | SolveStatus.WrongAnswer => encU32 2

/-- Decode `SolveStatus`; unknown tags are a decode failure. -/
def decStatus (bs : List Nat) : Option (SolveStatus × List Nat) :=
  match decU32 bs with
  | some (0, bs') => some (SolveStatus.None, bs')
  | some (1, bs') => some (SolveStatus.Accepted, bs')
  | some (2, bs') => some (SolveStatus.WrongAnswer, bs')
  | _ => none

/-- Encode a `ProblemCell` (field order: `wa_count`, `status`). -/
def encCell (c : ProblemCell) : List Nat := encU64 c.wa_count ++ encStatus c.status

/-- Decode a `ProblemCell`. -/
def decCell (bs : List Nat) : Option (ProblemCell × List Nat) :=
  match decU64 bs with
  | some (w, bs₁) =>
    match decStatus bs₁ with
    | some (st, bs₂) => some (⟨w, st⟩, bs₂)
    | none => none
  | none => none

/-- Encode one `problems` map entry. -/
def encProbEntry (e : Nat × ProblemCell) : List Nat := encU32 e.1 ++ encCell e.2

/-- Decode one `problems` map entry. -/
def decProbEntry (bs : List Nat) : Option ((Nat × ProblemCell) × List Nat) :=
  match decU32 bs with
  | some (p, bs₁) =>
    match decCell bs₁ with
    | some (c, bs₂) => some ((p, c), bs₂)
    | none => none
  | none => none

/-- Encode a `UserRecord` (field order: `id`, `name`, `problems`). -/
def encUser (u : UserRecord) : List Nat :=
  encU64 u.id ++ encStr u.name ++ encList encProbEntry u.problems

/-- Decode a `UserRecord`. -/
def decUser (bs : List Nat) : Option (UserRecord × List Nat) :=
  match decU64 bs with
  | some (i, bs₁) =>
    match decStr bs₁ with
    | some (nm, bs₂) =>
      match decList decProbEntry bs₂ with
      | some (ps, bs₃) => some (⟨i, nm, ps⟩, bs₃)
      | none => none
    | none => none
  | none => none

/-- Encode one `user_map` entry. -/
def encUserEntry (e : Nat × UserRecord) : List Nat := encU64 e.1 ++ encUser e.2

/-- Decode one `user_map` entry. -/
def decUserEntry (bs : List Nat) : Option ((Nat × UserRecord) × List Nat) :=
  match decU64 bs with
  | some (k, bs₁) =>
    match decUser bs₁ with
    | some (u, bs₂) => some ((k, u), bs₂)
    | none => none
  | none => none

/-- `save_cache`: the whole `Scoreboard`, field by field. -/
def encScoreboard (sb : Scoreboard) : List Nat :=
  encList encUserEntry sb.user_map ++ encList encU32 sb.problem_set ++
    encList (encPair encU32 encU64) sb.problem_cache

/-- `load_cache`'s decoder. -/
def decScoreboard (bs : List Nat) : Option (Scoreboard × List Nat) :=
  match decList decUserEntry bs with
  | some (um, bs₁) =>
    match decList decU32 bs₁ with
    | some (ps, bs₂) =>
      match decList (fun b =>
          match decU32 b with
          | some (p, b₁) =>
            match decU64 b₁ with
            | some (t, b₂) => some ((p, t), b₂)
            | none => none
          | none => none) bs₂ with
      | some (pc, bs₃) => some (⟨um, ps, pc⟩, bs₃)
      | none => none
    | none => none
  | none => none

/-- Range validity of a stored `ProblemCell` (`wa_count` is a `usize`). -/
def ValidCell (c : ProblemCell) : Prop := c.wa_count < 2 ^ 64

/-- Range validity of a stored `UserRecord`. -/
def ValidUser (u : UserRecord) : Prop :=
  u.id < 2 ^ 64 ∧ u.name.data.length < 2 ^ 64 ∧ u.problems.length < 2 ^ 64 ∧
    ∀ e ∈ u.problems, e.1 < 2 ^ 32 ∧ ValidCell e.2

/-- Range validity of a stored `Scoreboard`: every integer fits the width
the Rust type gives it (u64 user ids, u32 problem ids, u64 instants). -/
def ValidScoreboard (sb : Scoreboard) : Prop :=
  sb.user_map.length < 2 ^ 64 ∧ (∀ e ∈ sb.user_map, e.1 < 2 ^ 64 ∧ ValidUser e.2) ∧
    sb.problem_set.length < 2 ^ 64 ∧ (∀ p ∈ sb.problem_set, p < 2 ^ 32) ∧
    sb.problem_cache.length < 2 ^ 64 ∧
    ∀ e ∈ sb.problem_cache, e.1 < 2 ^ 32 ∧ e.2 < 2 ^ 64

instance (c : ProblemCell) : Decidable (ValidCell c) := by
  unfold ValidCell; infer_instance

instance (u : UserRecord) : Decidable (ValidUser u) := by
  unfold ValidUser; infer_instance

instance (sb : Scoreboard) : Decidable (ValidScoreboard sb) := by
  unfold ValidScoreboard; infer_instance

/-- The cache-loading policy of `main` (main.rs lines 81–86):
`if cache_path.exists() { Scoreboard::load_cache(cache_path)? } else { Scoreboard::new() }`.
A decode failure is propagated by `?` out of `main`. -/
def loadOrNew (cacheExists : Bool) (bytes : List Nat) : Except String Scoreboard :=
  if cacheExists then
    match decScoreboard bytes with
    | some (sb, _) => Except.ok sb
    | none => Except.error "cache decode failed"
  else Except.ok Scoreboard.new

/-! ### Concrete inputs for witnesses and counterexamples -/

/-- Submission with the given verdict, user, timestamp (problem 1). -/
def mkSub (v uid t : Nat) : Submission := ⟨none, none, 0, v, 0, uid, 1, t, t, 0, none⟩

/-- Store whose problem-1 watermark is 10. -/
def sbWm10 : Scoreboard := ⟨[], [], [(1, 10)]⟩

/-- A sorted batch lying entirely at or before timestamp 10. -/
def subsOld : List Submission := [mkSub 9 1 3, mkSub 10 1 10]

/-- Batch with a wrong answer and an accepted verdict at the same instant. -/
def subsTie : List Submission := [mkSub 9 2 5, mkSub 10 2 5]

/-- Store with two users both awaiting name resolution. -/
def sbTwoUsers : Scoreboard :=
  ⟨[(1, ⟨0, "", []⟩), (2, ⟨0, "", []⟩)], [], []⟩

/-- Name resolver that succeeds for user 1 and fails for user 2. -/
def resolverOneFails (uid : Nat) : Except String String :=
  if uid = 1 then Except.ok "alice" else Except.error "name resolution failed"

/-- Store with one user who never submitted anything for any problem. -/
def sbNoSubs : Scoreboard := ⟨[(3, ⟨3, "u3", []⟩)], [], []⟩

/-- A small valid store exercising every codec case. -/
def sbCodec : Scoreboard :=
  ⟨[(7, ⟨7, "ab", [(1, ⟨2, SolveStatus.WrongAnswer⟩), (3, ⟨1, SolveStatus.Accepted⟩)]⟩)],
   [1, 3], [(1, 99), (3, 120)]⟩

/-! ## Theorems -/

/-! ### Basic association-list lemmas -/

theorem alGet_eq_none (k : Nat) (l : List (Nat × α)) (h : ∀ e ∈ l, e.1 ≠ k) :
    alGet k l = none := by
  induction l with
  | nil => rfl
  | cons e t ih =>
    obtain ⟨k', v⟩ := e
    have hk : k' ≠ k := h (k', v) (List.mem_cons_self ..)
    simp only [alGet]
    rw [if_neg (fun hkk => hk hkk.symm)]
    exact ih fun e he => h e (List.mem_cons_of_mem _ he)

theorem alGet_mem {k : Nat} {l : List (Nat × α)} {v : α} (h : alGet k l = some v) :
    (k, v) ∈ l := by
  induction l with
  | nil => simp [alGet] at h
  | cons e t ih =>
    obtain ⟨k', v'⟩ := e
    simp only [alGet] at h
    by_cases hk : k = k'
    · rw [if_pos hk] at h
      cases h
      subst hk
      exact List.mem_cons_self ..
    · rw [if_neg hk] at h
      exact List.mem_cons_of_mem _ (ih h)

theorem alGet_alUpdate_ne (k k' : Nat) (d : α) (f : α → α) (l : List (Nat × α))
    (h : k ≠ k') : alGet k (alUpdate k' d f l) = alGet k l := by
  induction l with
  | nil => simp [alGet, alUpdate, if_neg h]
  | cons e t ih =>
    obtain ⟨k'', v⟩ := e
    simp only [alUpdate]
    by_cases h1 : k' < k''
    · rw [if_pos h1]
      simp only [alGet, if_neg h]
    · rw [if_neg h1]
      by_cases h2 : k' = k''
      · rw [if_pos h2]
        subst h2
        simp only [alGet, if_neg h]
      · rw [if_neg h2]
        simp only [alGet]
        by_cases h3 : k = k''
        · rw [if_pos h3, if_pos h3]
        · rw [if_neg h3, if_neg h3]
          exact ih

theorem alGet_alUpdate_self (k : Nat) (d : α) (f : α → α) (l : List (Nat × α))
    (hwf : MapWF l) : alGet k (alUpdate k d f l) = some (f ((alGet k l).getD d)) := by
  induction l with
  | nil => simp [alGet, alUpdate]
  | cons e t ih =>
    obtain ⟨k', v⟩ := e
    rw [MapWF, List.pairwise_cons] at hwf
    obtain ⟨hlt, hwf'⟩ := hwf
    simp only [alUpdate]
    by_cases h1 : k < k'
    · rw [if_pos h1]
      have hne : k ≠ k' := Nat.ne_of_lt h1
      simp only [alGet, if_pos rfl, if_neg hne]
      have : alGet k t = none := by
        refine alGet_eq_none k t fun e he => ?_
        have := hlt e he
        omega
      rw [this]
      rfl
    · rw [if_neg h1]
      by_cases h2 : k = k'
      · rw [if_pos h2]
        subst h2
        simp [alGet]
      · rw [if_neg h2]
        simp only [alGet, if_neg h2]
        exact ih hwf'

theorem alUpdate_mem {k : Nat} {d : α} {f : α → α} {l : List (Nat × α)} {e : Nat × α}
    (h : e ∈ alUpdate k d f l) : e ∈ l ∨ ∃ v, e = (k, f v) ∧ (v = d ∨ (k, v) ∈ l) := by
  induction l with
  | nil =>
    simp only [alUpdate, List.mem_singleton] at h
    exact Or.inr ⟨d, h, Or.inl rfl⟩
  | cons e' t ih =>
    obtain ⟨k', v⟩ := e'
    simp only [alUpdate] at h
    by_cases h1 : k < k'
    · rw [if_pos h1] at h
      rcases List.mem_cons.mp h with h | h
      · exact Or.inr ⟨d, h, Or.inl rfl⟩
      · exact Or.inl h
    · rw [if_neg h1] at h
      by_cases h2 : k = k'
      · rw [if_pos h2] at h
        rcases List.mem_cons.mp h with h | h
        · subst h2
          exact Or.inr ⟨v, h, Or.inr (List.mem_cons_self ..)⟩
        · exact Or.inl (List.mem_cons_of_mem _ h)
      · rw [if_neg h2] at h
        rcases List.mem_cons.mp h with h | h
        · exact Or.inl (h ▸ List.mem_cons_self ..)
        · rcases ih h with h | ⟨w, hw, hv⟩
          · exact Or.inl (List.mem_cons_of_mem _ h)
          · refine Or.inr ⟨w, hw, ?_⟩
            rcases hv with hv | hv
            · exact Or.inl hv
            · exact Or.inr (List.mem_cons_of_mem _ hv)

theorem alUpdate_wf (k : Nat) (d : α) (f : α → α) (l : List (Nat × α))
    (hwf : MapWF l) : MapWF (alUpdate k d f l) := by
  induction l with
  | nil => simp [MapWF, alUpdate]
  | cons e t ih =>
    obtain ⟨k', v⟩ := e
    rw [MapWF, List.pairwise_cons] at hwf
    obtain ⟨hlt, hwf'⟩ := hwf
    simp only [alUpdate]
    by_cases h1 : k < k'
    · rw [if_pos h1]
      rw [MapWF, List.pairwise_cons]
      refine ⟨?_, ?_⟩
      · intro e he
        rcases List.mem_cons.mp he with h | h
        · subst h; exact h1
        · have := hlt e h; omega
      · rw [MapWF, List.pairwise_cons] at *
        exact ⟨hlt, hwf'⟩
    · rw [if_neg h1]
      by_cases h2 : k = k'
      · rw [if_pos h2]
        rw [MapWF, List.pairwise_cons]
        exact ⟨hlt, hwf'⟩
      · rw [if_neg h2]
        rw [MapWF, List.pairwise_cons]
        refine ⟨?_, ih hwf'⟩
        intro e he
        rcases alUpdate_mem he with h | ⟨w, hw, _⟩
        · exact hlt e h
        · subst hw
          simp only
          omega


/-! ### Binary-search correctness

`c` below is the number of list positions whose probe is not `Greater`;
for a batch sorted by `created_at` and probe `compare created_at time`
these positions are exactly the prefix of submissions with
`created_at ≤ time`. -/

theorem bsLoop_eq (f : α → Ordering) (l : List α) (d : α) (c : Nat)
    (hchar : ∀ i, i < l.length → ((f (l.getD i d) ≠ Ordering.gt) ↔ i < c)) :
    ∀ fuel size base, 1 ≤ size → size ≤ fuel → base + size ≤ l.length →
      ((c = 0 ∧ base = 0) ∨ (base < c ∧ c ≤ base + size)) →
      bsLoop f l d fuel base size = c - 1 := by
  intro fuel
  induction fuel with
  | zero => intro size base h1 hf _ _; omega
  | succ fuel ih =>
    intro size base h1 hf hlen hinv
    show (if 1 < size then
        bsLoop f l d fuel
          (if f (l.getD (base + size / 2) d) = Ordering.gt then base
           else base + size / 2) (size - size / 2)
      else base) = c - 1
    by_cases hs : 1 < size
    · rw [if_pos hs]
      have hmidlen : base + size / 2 < l.length := by omega
      have hhalf1 : 1 ≤ size / 2 := by omega
      have hhalf2 : size / 2 ≤ size - size / 2 := by omega
      by_cases hgt : f (l.getD (base + size / 2) d) = Ordering.gt
      · rw [if_pos hgt]
        have hcm : ¬ base + size / 2 < c := by
          intro hc
          exact ((hchar _ hmidlen).mpr hc) hgt
        refine ih (size - size / 2) base (by omega) (by omega) (by omega) ?_
        rcases hinv with h | h
        · exact Or.inl h
        · exact Or.inr ⟨h.1, by omega⟩
      · rw [if_neg hgt]
        have hcm : base + size / 2 < c := (hchar _ hmidlen).mp hgt
        refine ih (size - size / 2) (base + size / 2) (by omega) (by omega) (by omega) ?_
        rcases hinv with h | h
        · omega
        · exact Or.inr ⟨hcm, by omega⟩
    · rw [if_neg hs]
      omega

theorem binarySearchBy_startPos (f : Submission → Ordering) (l : List Submission) (c : Nat)
    (hc : c ≤ l.length)
    (hchar : ∀ i, i < l.length → ((f (l.getD i defaultSubmission) ≠ Ordering.gt) ↔ i < c)) :
    (match binarySearchBy f l defaultSubmission with
     | Sum.inl p => p + 1
     | Sum.inr p => p) = c := by
  by_cases h0 : l.length = 0
  · have hc0 : c = 0 := by omega
    unfold binarySearchBy
    rw [if_pos h0, hc0]
  · have hbase : bsLoop f l defaultSubmission l.length 0 l.length = c - 1 := by
      refine bsLoop_eq f l defaultSubmission c hchar l.length l.length 0 (by omega)
        (by omega) (by omega) ?_
      by_cases hc0 : c = 0
      · exact Or.inl ⟨hc0, rfl⟩
      · exact Or.inr ⟨by omega, by omega⟩
    unfold binarySearchBy
    rw [if_neg h0, hbase]
    by_cases hc0 : c = 0
    · subst hc0
      have hgt : f (l.getD (0 - 1) defaultSubmission) = Ordering.gt := by
        by_contra hne
        have := (hchar (0 - 1) (by omega)).mp hne
        omega
      rw [hgt]
    · have hne : f (l.getD (c - 1) defaultSubmission) ≠ Ordering.gt :=
        (hchar (c - 1) (by omega)).mpr (by omega)
      rcases hord : f (l.getD (c - 1) defaultSubmission) with _ | _ | _
      · show c - 1 + 1 = c
        omega
      · show c - 1 + 1 = c
        omega
      · exact absurd hord hne

theorem sorted_le_char (subs : List Submission) (t : Nat)
    (hs : List.Pairwise (fun a b => a.created_at ≤ b.created_at) subs) :
    ∀ i, i < subs.length →
      ((subs.getD i defaultSubmission).created_at ≤ t ↔
        i < subs.countP (fun s => decide (s.created_at ≤ t))) := by
  induction subs with
  | nil => intro i h; simp at h
  | cons x xs ih =>
    rw [List.pairwise_cons] at hs
    obtain ⟨hx, hxs⟩ := hs
    intro i hi
    by_cases hxt : x.created_at ≤ t
    · rw [List.countP_cons_of_pos _ _ (by simpa using hxt)]
      cases i with
      | zero =>
        rw [List.getD_cons_zero]
        constructor
        · intro _; omega
        · intro _; exact hxt
      | succ j =>
        rw [List.getD_cons_succ]
        have hj : j < xs.length := by
          simp only [List.length_cons] at hi
          omega
        rw [ih hxs j hj]
        omega
    · rw [List.countP_cons_of_neg _ _ (by simpa using hxt)]
      have hall : xs.countP (fun s => decide (s.created_at ≤ t)) = 0 := by
        rw [List.countP_eq_zero]
        intro s hsmem
        have := hx s hsmem
        simp only [decide_eq_true_eq]
        omega
      rw [hall]
      cases i with
      | zero =>
        rw [List.getD_cons_zero]
        constructor
        · intro h; exact absurd h hxt
        · intro h; omega
      | succ j =>
        rw [List.getD_cons_succ]
        have hj : j < xs.length := by
          simp only [List.length_cons] at hi
          omega
        have hmem : xs.getD j defaultSubmission ∈ xs := by
          rw [List.getD_eq_getElem _ _ hj]
          exact List.getElem_mem hj
        have := hx _ hmem
        constructor
        · intro h; omega
        · intro h; omega

theorem sorted_countP_eq_findIdx (subs : List Submission) (t : Nat)
    (hs : List.Pairwise (fun a b => a.created_at ≤ b.created_at) subs) :
    subs.countP (fun s => decide (s.created_at ≤ t)) =
      subs.findIdx (fun s => decide (t < s.created_at)) := by
  induction subs with
  | nil => rfl
  | cons x xs ih =>
    rw [List.pairwise_cons] at hs
    obtain ⟨hx, hxs⟩ := hs
    by_cases hxt : x.created_at ≤ t
    · rw [List.countP_cons_of_pos _ _ (by simpa using hxt)]
      rw [List.findIdx_cons]
      have : (decide (t < x.created_at)) = false := by
        simp only [decide_eq_false_iff_not]
        omega
      rw [this]
      simp only [cond_false]
      rw [ih hxs]
    · rw [List.countP_cons_of_neg _ _ (by simpa using hxt)]
      rw [List.findIdx_cons]
      have : (decide (t < x.created_at)) = true := by
        simp only [decide_eq_true_eq]
        omega
      rw [this]
      simp only [cond_true]
      rw [List.countP_eq_zero]
      intro s hsmem
      have := hx s hsmem
      simp only [decide_eq_true_eq]
      omega

theorem startFrom_eq_countP (subs : List Submission) (t : Nat)
    (hs : List.Pairwise (fun a b => a.created_at ≤ b.created_at) subs) :
    startFrom subs t = subs.countP (fun s => decide (s.created_at ≤ t)) := by
  unfold startFrom
  refine binarySearchBy_startPos _ subs _ (List.countP_le_length _) ?_
  intro i hi
  have hchar := sorted_le_char subs t hs i hi
  rw [← hchar]
  constructor
  · intro h
    by_contra hnle
    have : t < (subs.getD i defaultSubmission).created_at := by omega
    exact h (Nat.compare_eq_gt.mpr this)
  · intro h hgt
    have := Nat.compare_eq_gt.mp hgt
    omega

/-! ### Merge-rule lemmas -/

theorem cellMerge_fix_accepted (v : Nat) (c : ProblemCell)
    (h : c.status = SolveStatus.Accepted) : cellMerge v c = c := by
  unfold cellMerge
  by_cases hr : isRejVerdict v = true
  · rw [if_pos hr, if_pos h]
  · rw [if_neg hr]
    by_cases ha : isAccVerdict v = true
    · rw [if_pos ha]
      cases c
      simp_all
    · rw [if_neg ha]

/-! ### Claim C1 -/

/-- C1: merge idempotence / watermark deduplication.  For a batch sorted by
`created_at`, the resume point computed by binary search is the index of
the first submission with `created_at` strictly greater than the stored
watermark; in particular, when the whole batch lies at or before the
watermark, the merge step leaves every `UserRecord` (the whole `user_map`)
unchanged. -/
theorem sync_dedup_resume_point (sb : Scoreboard) (pid : Nat) (subs : List Submission)
    (hsort : List.Pairwise (fun a b => a.created_at ≤ b.created_at) subs) :
    startFrom subs (wmOf sb pid) =
      subs.findIdx (fun s => decide (wmOf sb pid < s.created_at)) ∧
    ((∀ s ∈ subs, s.created_at ≤ wmOf sb pid) →
      (processBatch sb pid subs).user_map = sb.user_map) := by
  have key := startFrom_eq_countP subs (wmOf sb pid) hsort
  constructor
  · rw [key, sorted_countP_eq_findIdx subs _ hsort]
  · intro hall
    have hcount : subs.countP (fun s => decide (s.created_at ≤ wmOf sb pid)) =
        subs.length := by
      rw [List.countP_eq_length]
      intro s hm
      simpa using hall s hm
    have hdrop : subs.drop (startFrom subs (wmOf sb pid)) = [] := by
      rw [key, hcount, List.drop_length]
    show ((subs.drop (startFrom subs (wmOf sb pid))).foldl (mergeSub pid)
      (sb.user_map, wmOf sb pid)).1 = sb.user_map
    rw [hdrop]
    rfl

/-- Witness for C1 at the concrete store `sbWm10` (watermark 10 for
problem 1) and the sorted batch `subsOld` (timestamps 3 and 10). -/
theorem sync_dedup_resume_point_witness :
    startFrom subsOld 10 = subsOld.findIdx (fun s => decide (10 < s.created_at)) ∧
    (processBatch sbWm10 1 subsOld).user_map = sbWm10.user_map := by
  have h := sync_dedup_resume_point sbWm10 1 subsOld (by decide)
  exact ⟨h.1, h.2 (by decide)⟩

/-! ### Claim C2 -/

theorem cacheUpdate_mono (pid p : Nat) (cache : List (Nat × Nat)) (t2 : Nat)
    (hwf : MapWF cache) :
    (alGet pid cache).getD 0 ≤
      (alGet pid (alUpdate p t2 (fun t => if t < t2 then t2 else t) cache)).getD 0 := by
  by_cases hpq : pid = p
  · subst hpq
    rw [alGet_alUpdate_self _ _ _ _ hwf]
    cases halg : alGet pid cache with
    | none => simp
    | some t0 =>
      simp only [Option.getD_some]
      split <;> omega
  · rw [alGet_alUpdate_ne _ _ _ _ _ hpq]

theorem processBatch_wm_mono (sb : Scoreboard) (p : Nat) (subs : List Submission)
    (pid : Nat) (hwf : MapWF sb.problem_cache) :
    wmOf sb pid ≤ wmOf (processBatch sb p subs) pid := by
  unfold wmOf
  exact cacheUpdate_mono pid p sb.problem_cache _ hwf

theorem processBatch_cache_wf (sb : Scoreboard) (p : Nat) (subs : List Submission)
    (hwf : MapWF sb.problem_cache) : MapWF (processBatch sb p subs).problem_cache :=
  alUpdate_wf _ _ _ _ hwf

theorem syncMerge_wm_mono (batches : List (Nat × List Submission)) :
    ∀ sb : Scoreboard, MapWF sb.problem_cache →
      ∀ pid, wmOf sb pid ≤ wmOf (syncMerge sb batches) pid := by
  induction batches with
  | nil => intro sb _ pid; exact Nat.le_refl _
  | cons b t ih =>
    intro sb h pid
    exact Nat.le_trans (processBatch_wm_mono sb b.1 b.2 pid h)
      (ih (processBatch sb b.1 b.2) (processBatch_cache_wf sb b.1 b.2 h) pid)

/-- C2: monotonic watermark.  A full sync cycle (any fetch outcomes, any
name-resolution outcomes) never regresses any per-problem entry of
`problem_cache`, read as `sync` reads it (epoch when absent). -/
theorem sync_watermark_monotone (sb : Scoreboard)
    (fetched : List (Except String (Nat × List Submission)))
    (resolver : Nat → Except String String) (pid : Nat)
    (hwf : MapWF sb.problem_cache) :
    wmOf sb pid ≤ wmOf (sync sb fetched resolver).1 pid := by
  unfold sync
  cases hc : collectResults fetched with
  | error e => simp only [hc]; exact Nat.le_refl _
  | ok batches =>
    simp only [hc]
    cases hn : namePhase (syncMerge sb batches).user_map resolver with
    | error e =>
      simp only [hn]
      exact syncMerge_wm_mono batches sb hwf pid
    | ok um =>
      simp only [hn]
      exact syncMerge_wm_mono batches sb hwf pid

/-- Witness for C2: watermark 10 for problem 1 advances (here to 12)
and never regresses. -/
theorem sync_watermark_monotone_witness :
    wmOf sbWm10 1 ≤
      wmOf (sync sbWm10 [Except.ok (1, [mkSub 10 1 12])] (fun _ => Except.error "e")).1 1 :=
  sync_watermark_monotone sbWm10 [Except.ok (1, [mkSub 10 1 12])]
    (fun _ => Except.error "e") 1 (by decide)

/-! ### Claim C3 -/

/-- C3: accepted is terminal.  Once a cell's status is `Accepted`, the merge
rule maps any further submission (any verdict id, so also any timestamp)
to the same status and the same `wa_count`. -/
theorem accepted_is_terminal (v : Nat) (c : ProblemCell)
    (h : c.status = SolveStatus.Accepted) :
    (cellMerge v c).status = SolveStatus.Accepted ∧
      (cellMerge v c).wa_count = c.wa_count := by
  rw [cellMerge_fix_accepted v c h]
  exact ⟨h, rfl⟩

/-- Witness for C3 on an accepted cell with two prior wrong answers and a
new rejected verdict. -/
theorem accepted_is_terminal_witness :
    (cellMerge 9 ⟨2, SolveStatus.Accepted⟩).status = SolveStatus.Accepted ∧
      (cellMerge 9 ⟨2, SolveStatus.Accepted⟩).wa_count = 2 :=
  accepted_is_terminal 9 ⟨2, SolveStatus.Accepted⟩ rfl

/-! ### Claim C4 -/

theorem mergeSub_umWF (pid : Nat) (st : List (Nat × UserRecord) × Nat) (sub : Submission)
    (hwf : UMapWF st.1) : UMapWF (mergeSub pid st sub).1 := by
  constructor
  · exact alUpdate_wf _ _ _ _ hwf.1
  · intro e he
    rcases alUpdate_mem he with h | ⟨w, hw, hv⟩
    · exact hwf.2 e h
    · subst hw
      show MapWF (recMerge pid sub.verdict_id w).problems
      have hw2 : MapWF w.problems := by
        rcases hv with hv | hv
        · subst hv
          exact List.Pairwise.nil
        · exact hwf.2 _ hv
      unfold recMerge
      by_cases ht : isTerminalVerdict sub.verdict_id = true
      · rw [if_pos ht]
        exact alUpdate_wf _ _ _ _ hw2
      · rw [if_neg ht]
        exact hw2

theorem cellOf_mergeSub (pid u : Nat) (st : List (Nat × UserRecord) × Nat)
    (sub : Submission) (hwf : UMapWF st.1) :
    cellOf (mergeSub pid st sub).1 u pid =
      if sub.user_id = u then cellMerge sub.verdict_id (cellOf st.1 u pid)
      else cellOf st.1 u pid := by
  by_cases hu : sub.user_id = u
  · rw [if_pos hu]
    subst hu
    show (alGet pid ((alGet sub.user_id (alUpdate sub.user_id defaultUserRecord
      (recMerge pid sub.verdict_id) st.1)).getD defaultUserRecord).problems).getD
      defaultCell = _
    rw [alGet_alUpdate_self _ _ _ _ hwf.1]
    have hpw : MapWF ((alGet sub.user_id st.1).getD defaultUserRecord).problems := by
      cases halg : alGet sub.user_id st.1 with
      | none => exact List.Pairwise.nil
      | some r =>
        rw [Option.getD_some]
        exact hwf.2 _ (alGet_mem halg)
    rw [Option.getD_some]
    unfold recMerge
    by_cases ht : isTerminalVerdict sub.verdict_id = true
    · rw [if_pos ht]
      show (alGet pid (alUpdate pid defaultCell (cellMerge sub.verdict_id)
        ((alGet sub.user_id st.1).getD defaultUserRecord).problems)).getD defaultCell = _
      rw [alGet_alUpdate_self _ _ _ _ hpw]
      rw [Option.getD_some]
      rfl
    · rw [if_neg ht]
      have hcm : cellMerge sub.verdict_id (cellOf st.1 sub.user_id pid) =
          cellOf st.1 sub.user_id pid := by
        unfold isTerminalVerdict at ht
        simp only [Bool.or_eq_true, not_or, Bool.not_eq_true] at ht
        unfold cellMerge
        rw [ht.1, ht.2]
        simp
      rw [hcm]
      rfl
  · rw [if_neg hu]
    show (alGet pid ((alGet u (alUpdate sub.user_id defaultUserRecord
      (recMerge pid sub.verdict_id) st.1)).getD defaultUserRecord).problems).getD
      defaultCell = _
    rw [alGet_alUpdate_ne u sub.user_id _ _ st.1 (fun hc => hu hc.symm)]
    rfl

theorem cellOf_foldl_mergeSub (pid u : Nat) (subs : List Submission) :
    ∀ st : List (Nat × UserRecord) × Nat, UMapWF st.1 →
      cellOf (subs.foldl (mergeSub pid) st).1 u pid =
        (subs.filter (fun s => s.user_id == u)).foldl
          (fun c s => cellMerge s.verdict_id c) (cellOf st.1 u pid) := by
  induction subs with
  | nil => intro st _; rfl
  | cons s rest ih =>
    intro st hwf
    rw [List.foldl_cons, ih (mergeSub pid st s) (mergeSub_umWF pid st s hwf)]
    rw [cellOf_mergeSub pid u st s hwf]
    by_cases hu : s.user_id = u
    · rw [if_pos hu]
      rw [List.filter_cons_of_pos (by simp [hu])]
      rw [List.foldl_cons]
    · rw [if_neg hu]
      rw [List.filter_cons_of_neg (by simp [hu])]

theorem cellFold_accepted (l : List Submission) :
    ∀ c : ProblemCell, c.status = SolveStatus.Accepted →
      l.foldl (fun c s => cellMerge s.verdict_id c) c = c := by
  induction l with
  | nil => intro c _; rfl
  | cons s rest ih =>
    intro c h
    rw [List.foldl_cons, cellMerge_fix_accepted _ _ h]
    exact ih c h

theorem cellFold_wa_count (l : List Submission) :
    ∀ c : ProblemCell, c.status ≠ SolveStatus.Accepted →
      (l.foldl (fun c s => cellMerge s.verdict_id c) c).wa_count =
        c.wa_count + ((l.takeWhile (fun s => !isAccVerdict s.verdict_id)).countP
          (fun s => isRejVerdict s.verdict_id)) := by
  induction l with
  | nil =>
    intro c _
    simp [List.takeWhile_nil]
  | cons s rest ih =>
    intro c h
    rw [List.foldl_cons]
    by_cases hacc : isAccVerdict s.verdict_id = true
    · have hrej : isRejVerdict s.verdict_id = false := by
        unfold isAccVerdict at hacc
        simp only [beq_iff_eq] at hacc
        unfold isRejVerdict
        rw [hacc]
        rfl
      have hcm : cellMerge s.verdict_id c = ⟨c.wa_count, SolveStatus.Accepted⟩ := by
        unfold cellMerge
        rw [hrej, if_pos hacc]
        simp
      rw [hcm, cellFold_accepted rest _ rfl]
      rw [List.takeWhile_cons_of_neg (by simp [hacc])]
      simp
    · by_cases hrej : isRejVerdict s.verdict_id = true
      · have hcm : cellMerge s.verdict_id c =
            ⟨c.wa_count + 1, SolveStatus.WrongAnswer⟩ := by
          unfold cellMerge
          rw [if_pos hrej, if_neg h]
        rw [hcm, ih _ (by simp)]
        rw [List.takeWhile_cons_of_pos (by simp [hacc])]
        rw [List.countP_cons_of_pos _ _ (by simpa using hrej)]
        simp only
        omega
      · have hcm : cellMerge s.verdict_id c = c := by
          unfold cellMerge
          rw [if_neg hrej, if_neg hacc]
        rw [hcm, ih c h]
        rw [List.takeWhile_cons_of_pos (by simp [hacc])]
        rw [List.countP_cons_of_neg _ _ (by simpa using hrej)]

/-- C4 is false as stated when a collapsed-Rejected submission and the
first collapsed-Accepted submission share a timestamp.  `subsTie` is
sorted by `created_at` (both entries at instant 5); merging it into an
empty store gives `wa_count = 1` for cell (2, 1), yet the number of
collapsed-Rejected submissions with `created_at` strictly before the
first collapsed-Accepted submission's timestamp (5) is 0. -/
theorem rejected_count_timestamp_tie_cex :
    (cellOf ((subsTie.foldl (mergeSub 1) ([], 0)).1) 2 1).wa_count = 1 ∧
    subsTie.countP
      (fun s => isRejVerdict s.verdict_id && decide (s.created_at < 5)) = 0 ∧
    List.Pairwise (fun a b => a.created_at ≤ b.created_at) subsTie := by
  refine ⟨?_, ?_, ?_⟩ <;> decide

/-- C4 (amended): for any timestamp-ordered batch merged into an empty
store, a cell's `wa_count` equals the number of collapsed-Rejected
submissions of that user merged strictly before the first
collapsed-Accepted submission of that user **in merge order** (for
distinct timestamps this coincides with strictly-before by timestamp). -/
theorem rejected_count_merge_order (pid t0 u : Nat) (subs : List Submission) :
    (cellOf ((subs.foldl (mergeSub pid) ([], t0)).1) u pid).wa_count =
      ((subs.filter (fun s => s.user_id == u)).takeWhile
        (fun s => !isAccVerdict s.verdict_id)).countP
        (fun s => isRejVerdict s.verdict_id) := by
  rw [cellOf_foldl_mergeSub pid u subs ([], t0)
    ⟨List.Pairwise.nil, fun e he => absurd he (List.not_mem_nil e)⟩]
  have hdef : cellOf ([], t0).1 u pid = defaultCell := rfl
  rw [hdef, cellFold_wa_count _ defaultCell (by decide)]
  simp [defaultCell]

/-! ### Claims C5 and C6 -/

theorem collectResults_error (l : List (Except String α))
    (h : ∃ r ∈ l, isErrB r = true) : ∃ e, collectResults l = Except.error e := by
  induction l with
  | nil =>
    obtain ⟨r, hr, _⟩ := h
    exact absurd hr (List.not_mem_nil r)
  | cons x t ih =>
    cases x with
    | error e => exact ⟨e, rfl⟩
    | ok a =>
      obtain ⟨r, hr, hre⟩ := h
      rcases List.mem_cons.mp hr with h1 | h1
      · subst h1
        simp [isErrB] at hre
      · obtain ⟨e, he⟩ := ih ⟨r, h1, hre⟩
        refine ⟨e, ?_⟩
        show (match collectResults t with
              | Except.ok l => Except.ok (a :: l)
              | Except.error e => Except.error e) = Except.error e
        rw [he]

/-- C5 is false as stated: with a successful fetch for problem 1 and a
transport failure on the other problem, `sync` merges nothing — the store,
watermark included, is returned unchanged and the cycle returns the error —
even though merging problem 1's batch alone would have changed the store. -/
theorem fetch_partial_failure_cex :
    sync Scoreboard.new [Except.ok (1, [mkSub 10 1 5]), Except.error "transport"]
      (fun _ => Except.error "x") = (Scoreboard.new, Except.error "transport") ∧
    (cellOf (syncMerge Scoreboard.new [(1, [mkSub 10 1 5])]).user_map 1 1).status =
      SolveStatus.Accepted ∧
    Scoreboard.new.user_map = [] :=
  ⟨rfl, by decide, rfl⟩

/-- C5 (amended): the fetch phase is all-or-nothing — when the fetch or
parse of any problem's batch fails, `sync` returns an error with the store
unchanged: no batch (successful ones included) is merged, and no watermark
advances. -/
theorem fetch_failure_all_or_nothing (sb : Scoreboard)
    (fetched : List (Except String (Nat × List Submission)))
    (resolver : Nat → Except String String)
    (h : ∃ r ∈ fetched, isErrB r = true) :
    ∃ e, sync sb fetched resolver = (sb, Except.error e) := by
  obtain ⟨e, he⟩ := collectResults_error fetched h
  refine ⟨e, ?_⟩
  unfold sync
  rw [he]

/-- Witness for the amended C5: a single failed batch aborts the cycle. -/
theorem fetch_failure_all_or_nothing_witness :
    ∃ e, sync sbWm10 [Except.error "transport"] (fun _ => Except.error "x") =
      (sbWm10, Except.error e) :=
  fetch_failure_all_or_nothing sbWm10 [Except.error "transport"]
    (fun _ => Except.error "x")
    ⟨Except.error "transport", List.mem_singleton.mpr rfl, rfl⟩

/-- C6 is false as stated: `sbTwoUsers` has two users with empty names;
resolution succeeds for user 1 ("alice") and fails for user 2, yet `sync`
writes back **no** name (the store comes back exactly as it went in, user
1's name still empty) and terminates the cycle with the single error
rather than collecting failures and continuing. -/
theorem name_resolution_failure_cex :
    sync sbTwoUsers [] resolverOneFails =
      (sbTwoUsers, Except.error "name resolution failed") ∧
    needUpdate sbTwoUsers.user_map = [1, 2] ∧
    resolverOneFails 1 = Except.ok "alice" := by
  exact ⟨rfl, rfl, rfl⟩

/-- C6 (amended): a name-resolution failure for any user whose name is
needed aborts the whole write-back: `sync` returns an error and the user
map is exactly the post-merge map — no resolved name, successful or not,
is written.  (Names left empty are implicitly retried next cycle.) -/
theorem name_failure_aborts_writeback (sb : Scoreboard)
    (resolver : Nat → Except String String)
    (h : ∃ uid ∈ needUpdate sb.user_map, isErrB (resolver uid) = true) :
    ∃ e, sync sb [] resolver = (sb, Except.error e) := by
  have hmap : ∃ r ∈ (needUpdate sb.user_map).map (fun uid =>
      match resolver uid with
      | Except.ok n => Except.ok (uid, n)
      | Except.error e => Except.error e), isErrB r = true := by
    obtain ⟨uid, hmem, herr⟩ := h
    refine ⟨_, List.mem_map_of_mem _ hmem, ?_⟩
    cases hres : resolver uid with
    | ok n =>
      rw [hres] at herr
      simp [isErrB] at herr
    | error e => rfl
  obtain ⟨e, he⟩ := collectResults_error _ hmap
  have hnp : namePhase (syncMerge sb []).user_map resolver = Except.error e := by
    show namePhase sb.user_map resolver = Except.error e
    unfold namePhase
    rw [he]
  refine ⟨e, ?_⟩
  show (match namePhase (syncMerge sb []).user_map resolver with
        | Except.error e => (syncMerge sb [], Except.error e)
        | Except.ok um =>
          ({ syncMerge sb [] with user_map := um }, Except.ok ())) =
    (sb, Except.error e)
  rw [hnp]
  rfl

/-- Witness for the amended C6: user 2's failure aborts the whole
name-resolution phase for the two-user store. -/
theorem name_failure_aborts_writeback_witness :
    ∃ e, sync sbTwoUsers [] resolverOneFails = (sbTwoUsers, Except.error e) :=
  name_failure_aborts_writeback sbTwoUsers resolverOneFails
    ⟨2, by decide, rfl⟩

/-! ### Claim C8 -/

/-- C8 is false as stated: when the cache blob exists but fails to decode
(an empty/truncated byte string), `main`'s loading policy propagates the
error with `?` — startup aborts instead of substituting the empty store. -/
theorem load_cache_decode_failure_cex :
    loadOrNew true [] = Except.error "cache decode failed" ∧
    loadOrNew true [] ≠ Except.ok Scoreboard.new := by
  refine ⟨rfl, ?_⟩
  intro hcontra
  rw [show loadOrNew true [] = Except.error "cache decode failed" from rfl] at hcontra
  exact Except.noConfusion hcontra

/-- C8 (amended): when the cache file does not exist, `main` starts from
`Scoreboard::new()`; but when the file exists and its bytes fail to decode,
`load_cache`'s error is propagated by the `?` in `main` and startup aborts
with the error — there is no fallback to an empty store on decode failure. -/
theorem load_cache_policy (bytes : List Nat) (h : decScoreboard bytes = none) :
    loadOrNew false bytes = Except.ok Scoreboard.new ∧
    loadOrNew true bytes = Except.error "cache decode failed" := by
  constructor
  · rfl
  · show (match decScoreboard bytes with
          | some (sb, _) => Except.ok sb
          | none => Except.error "cache decode failed") = _
    rw [h]

/-- Witness for the amended C8 at the empty (truncated) byte string. -/
theorem load_cache_policy_witness :
    loadOrNew false [] = Except.ok Scoreboard.new ∧
    loadOrNew true [] = Except.error "cache decode failed" :=
  load_cache_policy [] rfl

/-! ### Claim C9 -/

theorem insDesc_length (ps : List Nat) (u : UserRecord) (l : List UserRecord) :
    (insDesc ps u l).length = l.length + 1 := by
  induction l with
  | nil => rfl
  | cons v t ih =>
    show (if acCount ps v ≤ acCount ps u then u :: v :: t
          else v :: insDesc ps u t).length = (v :: t).length + 1
    split
    · rfl
    · simp only [List.length_cons, ih]

theorem sortDesc_length (ps : List Nat) (l : List UserRecord) :
    (sortDesc ps l).length = l.length := by
  induction l with
  | nil => rfl
  | cons u t ih =>
    show (insDesc ps u (sortDesc ps t)).length = (u :: t).length
    rw [insDesc_length, ih]
    rfl

/-- C9 is false as stated: `sbNoSubs` holds one user (u3) with no
submission at all, so every cell of the requested list `[2]` is `None` —
yet `gen_table` still emits the row `["u3", "NS"]`; all-None rows are not
suppressed. -/
theorem all_none_row_not_suppressed_cex :
    ((alGet 2 (⟨3, "u3", []⟩ : UserRecord).problems).getD defaultCell).status =
      SolveStatus.None ∧
    genTableRows sbNoSubs [2] =
      [["", "2"], ["Updated At", ""], ["u3", "NS"], ["", "2"]] :=
  ⟨rfl, rfl⟩

/-- C9 (amended): `gen_table` performs no row filtering at all — the grid
always contains exactly one row per user of `user_map` (between the header,
the update-time row and the footer), regardless of the users' cells. -/
theorem gen_table_row_count (sb : Scoreboard) (problems : List Nat) :
    (genTableRows sb problems).length = sb.user_map.length + 3 := by
  show (_ :: _ :: ((sortDesc sb.problem_set (sb.user_map.map fun e => e.2)).map
    (userRow problems) ++ [_])).length = sb.user_map.length + 3
  simp only [List.length_cons, List.length_append, List.length_map,
    List.length_singleton, List.length_nil, sortDesc_length]

/-! ### Claim C10 -/

theorem alGet_alUpdate_congr (p : Nat) (l l' : List (Nat × Nat)) (t2 : Nat)
    (hwf : MapWF l) (hwf' : MapWF l') (h : alGet p l' = alGet p l) :
    alGet p (alUpdate p t2 (fun t => if t < t2 then t2 else t) l') =
      alGet p (alUpdate p t2 (fun t => if t < t2 then t2 else t) l) := by
  rw [alGet_alUpdate_self _ _ _ _ hwf', alGet_alUpdate_self _ _ _ _ hwf, h]

/-- C10: per-problem watermark independence.  Merging the batch fetched
for problem `p` (1) leaves the `problem_cache` entry of every other
problem `q` untouched, and (2) reads only `problem_cache[p]` besides the
user map: any store agreeing on `user_map` and on the `p` entry produces
the same merged `user_map` and the same new `p` entry. -/
theorem watermark_per_problem_independent (sb sb' : Scoreboard) (p q : Nat)
    (subs : List Submission) (hpq : q ≠ p)
    (hum : sb'.user_map = sb.user_map)
    (hwm : alGet p sb'.problem_cache = alGet p sb.problem_cache)
    (hwf : MapWF sb.problem_cache) (hwf' : MapWF sb'.problem_cache) :
    alGet q (processBatch sb p subs).problem_cache = alGet q sb.problem_cache ∧
    (processBatch sb' p subs).user_map = (processBatch sb p subs).user_map ∧
    alGet p (processBatch sb' p subs).problem_cache =
      alGet p (processBatch sb p subs).problem_cache := by
  have hr : (subs.drop (startFrom subs ((alGet p sb'.problem_cache).getD 0))).foldl
      (mergeSub p) (sb'.user_map, (alGet p sb'.problem_cache).getD 0) =
    (subs.drop (startFrom subs ((alGet p sb.problem_cache).getD 0))).foldl
      (mergeSub p) (sb.user_map, (alGet p sb.problem_cache).getD 0) := by
    rw [hum, hwm]
  refine ⟨?_, ?_, ?_⟩
  · exact alGet_alUpdate_ne q p _ _ _ hpq
  · exact congrArg Prod.fst hr
  · show alGet p (alUpdate p
        ((subs.drop (startFrom subs ((alGet p sb'.problem_cache).getD 0))).foldl
          (mergeSub p) (sb'.user_map, (alGet p sb'.problem_cache).getD 0)).2 _
        sb'.problem_cache) =
      alGet p (alUpdate p
        ((subs.drop (startFrom subs ((alGet p sb.problem_cache).getD 0))).foldl
          (mergeSub p) (sb.user_map, (alGet p sb.problem_cache).getD 0)).2 _
        sb.problem_cache)
    rw [hr]
    exact alGet_alUpdate_congr p sb.problem_cache sb'.problem_cache _ hwf hwf' hwm

/-- Witness for C10: two stores differing only in problem 2's watermark;
merging a batch for problem 1 neither reads nor writes entry 2. -/
theorem watermark_per_problem_independent_witness :
    alGet 2 (processBatch ⟨[], [], [(1, 5), (2, 7)]⟩ 1 [mkSub 9 1 6]).problem_cache =
      alGet 2 (⟨[], [], [(1, 5), (2, 7)]⟩ : Scoreboard).problem_cache ∧
    (processBatch ⟨[], [], [(1, 5), (2, 9)]⟩ 1 [mkSub 9 1 6]).user_map =
      (processBatch ⟨[], [], [(1, 5), (2, 7)]⟩ 1 [mkSub 9 1 6]).user_map ∧
    alGet 1 (processBatch ⟨[], [], [(1, 5), (2, 9)]⟩ 1 [mkSub 9 1 6]).problem_cache =
      alGet 1 (processBatch ⟨[], [], [(1, 5), (2, 7)]⟩ 1 [mkSub 9 1 6]).problem_cache :=
  watermark_per_problem_independent ⟨[], [], [(1, 5), (2, 7)]⟩ ⟨[], [], [(1, 5), (2, 9)]⟩
    1 2 [mkSub 9 1 6] (by decide) rfl rfl (by decide) (by decide)

/-! ### Claim C7: codec round trip -/

theorem toLE_length (k : Nat) : ∀ n, (toLE k n).length = k := by
  induction k with
  | zero => intro n; rfl
  | succ k ih =>
    intro n
    show (n % 256 :: toLE k (n / 256)).length = k + 1
    rw [List.length_cons, ih]

theorem fromLE_toLE (k : Nat) : ∀ n, n < 256 ^ k → fromLE (toLE k n) = n := by
  induction k with
  | zero =>
    intro n h
    rw [Nat.pow_zero] at h
    interval_cases n
    rfl
  | succ k ih =>
    intro n h
    show n % 256 + 256 * fromLE (toLE k (n / 256)) = n
    rw [ih (n / 256) (Nat.div_lt_of_lt_mul
      (by rw [Nat.pow_succ, Nat.mul_comm] at h; exact h))]
    exact Nat.mod_add_div n 256

theorem decFixed_round (k n : Nat) (r : List Nat) (h : n < 256 ^ k) :
    decFixed k (toLE k n ++ r) = some (n, r) := by
  unfold decFixed
  rw [if_pos (by rw [List.length_append, toLE_length]; omega)]
  rw [List.take_left' (toLE_length k n), List.drop_left' (toLE_length k n)]
  rw [fromLE_toLE k n h]

theorem decU64_round (n : Nat) (r : List Nat) (h : n < 2 ^ 64) :
    decU64 (encU64 n ++ r) = some (n, r) :=
  decFixed_round 8 n r (by norm_num at h ⊢; exact h)

theorem decU32_round (n : Nat) (r : List Nat) (h : n < 2 ^ 32) :
    decU32 (encU32 n ++ r) = some (n, r) :=
  decFixed_round 4 n r (by norm_num at h ⊢; exact h)

theorem decListN_round (dec : List Nat → Option (α × List Nat)) (enc : α → List Nat)
    (l : List α) (hel : ∀ a ∈ l, ∀ r, dec (enc a ++ r) = some (a, r)) :
    ∀ r, decListN dec l.length (encListAux enc l ++ r) = some (l, r) := by
  induction l with
  | nil => intro r; rfl
  | cons a t ih =>
    intro r
    show (match dec ((enc a ++ encListAux enc t) ++ r) with
          | some (a, bs') =>
            match decListN dec t.length bs' with
            | some (l, bs'') => some (a :: l, bs'')
            | none => none
          | none => none) = some (a :: t, r)
    rw [List.append_assoc, hel a (List.mem_cons_self ..) _]
    show (match decListN dec t.length (encListAux enc t ++ r) with
          | some (l, bs'') => some (a :: l, bs'')
          | none => none) = some (a :: t, r)
    rw [ih (fun x hx => hel x (List.mem_cons_of_mem _ hx)) r]

theorem decList_round (dec : List Nat → Option (α × List Nat)) (enc : α → List Nat)
    (l : List α) (hlen : l.length < 2 ^ 64)
    (hel : ∀ a ∈ l, ∀ r, dec (enc a ++ r) = some (a, r)) (r : List Nat) :
    decList dec (encList enc l ++ r) = some (l, r) := by
  unfold decList encList
  rw [List.append_assoc, decU64_round l.length _ hlen]
  exact decListN_round dec enc l hel r

theorem decChar_round (c : Char) (r : List Nat) :
    decChar (encChar c ++ r) = some (c, r) := by
  unfold decChar encChar
  rw [decU32_round c.toNat r (by simpa [Char.toNat] using c.val.toNat_lt)]
  show some (Char.ofNat c.toNat, r) = some (c, r)
  rw [Char.ofNat_toNat]

theorem decStr_round (s : String) (r : List Nat) (h : s.data.length < 2 ^ 64) :
    decStr (encStr s ++ r) = some (s, r) := by
  unfold decStr encStr
  rw [decList_round decChar encChar s.data h (fun c _ r => decChar_round c r) r]

theorem decStatus_round (st : SolveStatus) (r : List Nat) :
    decStatus (encStatus st ++ r) = some (st, r) := by
  cases st with
  | None =>
    show decStatus (encU32 0 ++ r) = some (SolveStatus.None, r)
    unfold decStatus
    rw [decU32_round 0 r (by norm_num)]
  | Accepted =>
    show decStatus (encU32 1 ++ r) = some (SolveStatus.Accepted, r)
    unfold decStatus
    rw [decU32_round 1 r (by norm_num)]
  | WrongAnswer =>
    show decStatus (encU32 2 ++ r) = some (SolveStatus.WrongAnswer, r)
    unfold decStatus
    rw [decU32_round 2 r (by norm_num)]

theorem decCell_round (c : ProblemCell) (r : List Nat) (h : ValidCell c) :
    decCell (encCell c ++ r) = some (c, r) := by
  unfold decCell encCell
  rw [List.append_assoc, decU64_round c.wa_count _ h]
  show (match decStatus (encStatus c.status ++ r) with
        | some (st, bs₂) => some (⟨c.wa_count, st⟩, bs₂)
        | none => none) = some (c, r)
  rw [decStatus_round c.status r]

theorem decProbEntry_round (e : Nat × ProblemCell) (r : List Nat)
    (h1 : e.1 < 2 ^ 32) (h2 : ValidCell e.2) :
    decProbEntry (encProbEntry e ++ r) = some (e, r) := by
  unfold decProbEntry encProbEntry
  rw [List.append_assoc, decU32_round e.1 _ h1]
  show (match decCell (encCell e.2 ++ r) with
        | some (c, bs₂) => some ((e.1, c), bs₂)
        | none => none) = some (e, r)
  rw [decCell_round e.2 r h2]

theorem decUser_round (u : UserRecord) (r : List Nat) (h : ValidUser u) :
    decUser (encUser u ++ r) = some (u, r) := by
  obtain ⟨hid, hname, hplen, hprobs⟩ := h
  unfold decUser encUser
  rw [List.append_assoc, List.append_assoc, decU64_round u.id _ hid]
  show (match decStr (encStr u.name ++ (encList encProbEntry u.problems ++ r)) with
        | some (nm, bs₂) =>
          match decList decProbEntry bs₂ with
          | some (ps, bs₃) => some (⟨u.id, nm, ps⟩, bs₃)
          | none => none
        | none => none) = some (u, r)
  rw [decStr_round u.name _ hname]
  show (match decList decProbEntry (encList encProbEntry u.problems ++ r) with
        | some (ps, bs₃) => some (⟨u.id, u.name, ps⟩, bs₃)
        | none => none) = some (u, r)
  rw [decList_round decProbEntry encProbEntry u.problems hplen
    (fun e he r => decProbEntry_round e r (hprobs e he).1 (hprobs e he).2) r]

theorem decUserEntry_round (e : Nat × UserRecord) (r : List Nat)
    (h1 : e.1 < 2 ^ 64) (h2 : ValidUser e.2) :
    decUserEntry (encUserEntry e ++ r) = some (e, r) := by
  unfold decUserEntry encUserEntry
  rw [List.append_assoc, decU64_round e.1 _ h1]
  show (match decUser (encUser e.2 ++ r) with
        | some (u, bs₂) => some ((e.1, u), bs₂)
        | none => none) = some (e, r)
  rw [decUser_round e.2 r h2]

theorem decCacheEntry_round (e : Nat × Nat) (r : List Nat)
    (h1 : e.1 < 2 ^ 32) (h2 : e.2 < 2 ^ 64) :
    (match decU32 (encPair encU32 encU64 e ++ r) with
     | some (p, b₁) =>
       match decU64 b₁ with
       | some (t, b₂) => some ((p, t), b₂)
       | none => none
     | none => none) = some (e, r) := by
  show (match decU32 ((encU32 e.1 ++ encU64 e.2) ++ r) with
        | some (p, b₁) =>
          match decU64 b₁ with
          | some (t, b₂) => some ((p, t), b₂)
          | none => none
        | none => none) = some (e, r)
  rw [List.append_assoc, decU32_round e.1 _ h1]
  show (match decU64 (encU64 e.2 ++ r) with
        | some (t, b₂) => some ((e.1, t), b₂)
        | none => none) = some (e, r)
  rw [decU64_round e.2 r h2]

/-- C7: cache round trip.  Decoding the bytes produced by encoding any
valid `Scoreboard` (every stored integer within the width of its Rust
type) yields the same store, field for field, with no bytes left over. -/
theorem cache_round_trip (sb : Scoreboard) (h : ValidScoreboard sb) :
    decScoreboard (encScoreboard sb) = some (sb, []) := by
  obtain ⟨hulen, husers, hslen, hset, hclen, hcache⟩ := h
  unfold decScoreboard encScoreboard
  rw [List.append_assoc]
  rw [show encList encUserEntry sb.user_map ++
      (encList encU32 sb.problem_set ++ encList (encPair encU32 encU64) sb.problem_cache) =
    encList encUserEntry sb.user_map ++
      (encList encU32 sb.problem_set ++
        (encList (encPair encU32 encU64) sb.problem_cache ++ [])) from by
    rw [List.append_nil]]
  rw [decList_round decUserEntry encUserEntry sb.user_map hulen
    (fun e he r => decUserEntry_round e r (husers e he).1 (husers e he).2) _]
  show (match decList decU32 (encList encU32 sb.problem_set ++
          (encList (encPair encU32 encU64) sb.problem_cache ++ [])) with
        | some (ps, bs₂) =>
          match decList (fun b =>
              match decU32 b with
              | some (p, b₁) =>
                match decU64 b₁ with
                | some (t, b₂) => some ((p, t), b₂)
                | none => none
              | none => none) bs₂ with
          | some (pc, bs₃) => some (⟨sb.user_map, ps, pc⟩, bs₃)
          | none => none
        | none => none) = some (sb, [])
  rw [decList_round decU32 encU32 sb.problem_set hslen
    (fun p hp r => decU32_round p r (hset p hp)) _]
  show (match decList (fun b =>
          match decU32 b with
          | some (p, b₁) =>
            match decU64 b₁ with
            | some (t, b₂) => some ((p, t), b₂)
            | none => none
          | none => none) (encList (encPair encU32 encU64) sb.problem_cache ++ []) with
        | some (pc, bs₃) => some (⟨sb.user_map, sb.problem_set, pc⟩, bs₃)
        | none => none) = some (sb, [])
  rw [decList_round _ (encPair encU32 encU64) sb.problem_cache hclen
    (fun e he r => decCacheEntry_round e r (hcache e he).1 (hcache e he).2) []]

/-- Witness for C7 at the concrete store `sbCodec` (one user with a name
and two cells, two problems, two watermark entries). -/
theorem cache_round_trip_witness :
    decScoreboard (encScoreboard sbCodec) = some (sbCodec, []) :=
  cache_round_trip sbCodec (by decide)

end CPScoreboard
